import Mathlib

/-!
Verification development for the dev-image-chat pipeline core.

The Go source is shallowly embedded: pure functions become Lean functions,
the stateful dispatcher goroutine becomes an explicit state machine driven
by a timestamped event trace (discrete time as Nat), and every external
effect (HTTP calls, file writes) becomes an oracle parameter of type
Except or a function argument, so each definition stays executable.

Modelling conventions, noted once here:
- Go time.Time is modelled as Nat; the zero time.Time (never dispatched)
  is Option.none.  time.Duration is a Nat number of abstract ticks.
- Go byte slices are List Nat; Go strings are String (Go runes = Lean Char).
- The dispatcher goroutine's select loop is deterministic here: when an
  armed timer's deadline is at or before the next incoming file event, the
  timer fire is processed first.  Go's select would resolve a simultaneous
  readiness race at random; none of the proved properties depends on the
  tie order, and counterexamples avoid ties.
- encoding/json is modelled by an explicit JSON parser over Char lists and
  explicit unmarshalling functions replaying the struct semantics the
  source relies on (last duplicate key wins, null leaves the zero value,
  a type mismatch fails the whole Unmarshal).  Exact-case key match is
  assumed (Go also accepts case-insensitive matches); exotic Unicode
  whitespace beyond Latin-1 is not trimmed; surrogate-pair escapes are
  not combined.  None of the claims exercises these corners.
-/

/-- One conversation turn, from parser.go (struct Message). -/
structure Message where
  role : String
  content : String
deriving DecidableEq

/-- TailMessages returns the last n messages from the slice (parser.go). -/
def TailMessages (msgs : List Message) (n : Nat) : List Message :=
  if msgs.length ≤ n then msgs else msgs.drop (msgs.length - n)

/-- Kernel-friendly list version of prefix testing. -/
def listBeginsWith : List Char → List Char → Bool
  | [], _ => true
  | _ :: _, [] => false
  | p :: ps, c :: cs => p = c && listBeginsWith ps cs

/-- Model of strings.HasPrefix. -/
def strBeginsWith (s pre : String) : Bool :=
  listBeginsWith pre.data s.data

/-- Model of strings.HasSuffix. -/
def strFinishesWith (s suf : String) : Bool :=
  listBeginsWith suf.data.reverse s.data.reverse

/-- Model of strings.Join. -/
def joinWith (sep : String) : List String → String
  | [] => ""
  | [x] => x
  | x :: xs => x ++ sep ++ joinWith sep xs

/-- Characters trimmed by strings.TrimSpace (Latin-1 fragment of unicode.IsSpace). -/
def isSpaceChar (c : Char) : Bool :=
  c = ' ' || c = '\t' || c = '\n' || c = '\x0b' || c = '\x0c' || c = '\r' ||
    c = '\x85' || c = '\xA0'

/-- Model of strings.TrimSpace. -/
def trimSpaceStr (s : String) : String :=
  ⟨((s.data.dropWhile isSpaceChar).reverse.dropWhile isSpaceChar).reverse⟩

/-- The per-message test of ExtractTitle's loop: a user message whose text
does not start with the reserved marker character. -/
def isTitleMsg (m : Message) : Bool :=
  decide (m.role = "user") && !(strBeginsWith m.content "<")

/-- ExtractTitle returns the first real user message's text, truncated to
maxLen runes with an ellipsis; messages starting with the marker char are
skipped (parser.go ExtractTitle). -/
def ExtractTitle (messages : List Message) (maxLen : Nat) : String :=
  match messages with
  | [] => ""
  | m :: rest =>
    if isTitleMsg m then
      if maxLen < m.content.length then ⟨m.content.data.take maxLen⟩ ++ "..."
      else m.content
    else ExtractTitle rest maxLen

/-- Title extraction restated from the spec's words (first user turn whose
text does not begin with the reserved marker, truncated with ellipsis iff
it exceeds maxLen, empty if none), for comparison with ExtractTitle. -/
def extractTitleSpec (messages : List Message) (maxLen : Nat) : String :=
  match messages.find? isTitleMsg with
  | none => ""
  | some m =>
    if maxLen < m.content.length then ⟨m.content.data.take maxLen⟩ ++ "..."
    else m.content

/-- Watcher.readNewData (watcher.go): seek to the consumed offset, read to
end of file, discard empty reads, advance the offset on success.  The file
content is the byte list, ioErr models an open/seek/read failure (all of
which return before the offset map is updated). -/
def readNewData (offsets : String → Nat) (path : String) (content : List Nat)
    (ioErr : Bool) : (String → Nat) × Option (List Nat) :=
  let offset := offsets path
  if ioErr then (offsets, none)
  else
    let data := content.drop offset
    if data.length = 0 then (offsets, none)
    else (fun p => if p = path then offset + data.length else offsets p, some data)

/-- One entry of os.ReadDir's result as consumed by cleanupOldImages:
name, directory flag, modification time, and whether e.Info() failed. -/
structure DirEntry where
  name : String
  isDir : Bool
  modTime : Nat
  infoErr : Bool
deriving DecidableEq

/-- Ascending modification-time order used by cleanupOldImages' sort. -/
def byTime (a b : DirEntry) : Prop := a.modTime ≤ b.modTime

instance : DecidableRel byTime := fun a b => Nat.decLe a.modTime b.modTime

instance : IsTotal DirEntry byTime := ⟨fun a b => Nat.le_total a.modTime b.modTime⟩

instance : IsTrans DirEntry byTime := ⟨fun _ _ _ h h' => Nat.le_trans h h'⟩

/-- The file filter of cleanupOldImages: regular files with extension .png
whose Info() call succeeded.  For names ending in ".png" the final dot is
the one before "png", so filepath.Ext(name) == ".png" is exactly
String.endsWith ".png". -/
def pngFiles (entries : List DirEntry) : List DirEntry :=
  entries.filter (fun e => !e.isDir && strFinishesWith e.name ".png" && !e.infoErr)

/-- cleanupOldImages (image_generator.go): if more than maxImages png files
exist, delete the oldest-by-modification-time until maxImages remain.
Returns the names scheduled for os.Remove.  Go's sort.Slice is an unstable
sort by strict Before; insertionSort is one admissible ordering of it and
agrees whenever modification times are distinct. -/
def cleanupOldImages (entries : List DirEntry) (maxImages : Nat) : List String :=
  let files := pngFiles entries
  if files.length ≤ maxImages then []
  else ((List.insertionSort byTime files).take (files.length - maxImages)).map DirEntry.name

/-- Concrete directory state for the retention scenario: 35 artifacts with
modification times 1..35. -/
def retentionScenarioEntries : List DirEntry :=
  (List.range 35).map (fun i => ⟨"img" ++ toString i ++ ".png", false, i + 1, false⟩)

/-- The guard entry protocol shared by both image generators (the mutex
protected check of the generating flag): a busy guard rejects and is left
unchanged, a free guard is marked busy and accepts.  Result is
(flag afterwards, accepted). -/
def guardTryAcquire (generating : Bool) : Bool × Bool :=
  if generating then (generating, false) else (true, true)

/-- Outcome of one image-stage Generate call: the generating flag after the
call returns, whether the external collaborator was invoked, and the Go
return pair (filename, error). -/
structure StageResult where
  flagAfter : Bool
  externalCalled : Bool
  filename : String
  error : Option String
deriving DecidableEq

/-- Prompt assembly of SDImageGenerator.Generate: when an extra prompt is
configured, append it after a comma; when the trimmed prompt already ends
in a comma the source appends the extra prompt to the untrimmed original. -/
def sdFullPrompt (prompt extra : String) : String :=
  if extra = "" then prompt
  else
    let trimmed : String := ⟨(prompt.data.reverse.dropWhile (fun c => c = ' ')).reverse⟩
    let fp := if strFinishesWith trimmed "," then prompt else trimmed ++ ", "
    fp ++ extra

/-- External effects of SDImageGenerator.Generate as oracles: the txt2img
HTTP call (request error, non-200 status and response-decode failures are
collapsed into the error case; success is the images array of base64
strings), base64 decoding, and saveImage. -/
structure SDExternal where
  txt2img : String → Except String (List String)
  b64decode : String → Except String (List Nat)
  save : List Nat → Except String String

/-- SDImageGenerator.Generate (image_generator.go): busy guard, prompt
assembly, external call, decode, save.  The deferred unlock resets the
generating flag on every exit of an accepted call; json.Marshal of the
request struct cannot fail and is not modelled; cleanupOldImages runs
after a successful save and does not affect the returned pair. -/
def sdGenerate (generating : Bool) (prompt extra : String) (ext : SDExternal) :
    StageResult :=
  let acq := guardTryAcquire generating
  if acq.2 then
    match ext.txt2img (sdFullPrompt prompt extra) with
    | .error e => ⟨false, true, "", some e⟩
    | .ok images =>
      match images with
      | [] => ⟨false, true, "", some "no images in response"⟩
      | img :: _ =>
        match ext.b64decode img with
        | .error e => ⟨false, true, "", some e⟩
        | .ok bytes =>
          match ext.save bytes with
          | .error e => ⟨false, true, "", some e⟩
          | .ok filename => ⟨false, true, filename, none⟩
  else ⟨acq.1, false, "", none⟩

/-- One part of a Gemini response candidate's content (InlineData.Data). -/
structure GenPart where
  inlineData : Option (List Nat)
deriving DecidableEq

/-- One candidate of a Gemini response. -/
structure GenCandidate where
  content : Option (List GenPart)
deriving DecidableEq

/-- A Gemini GenerateContent response. -/
structure GenResponse where
  candidates : List GenCandidate
deriving DecidableEq

/-- The scan of extractImageFromResponse: first part with non-nil, non-empty
inline data. -/
def findInlineData : List GenPart → Option (List Nat)
  | [] => none
  | p :: ps =>
    match p.inlineData with
    | some d => if 0 < d.length then some d else findInlineData ps
    | none => findInlineData ps

/-- extractImageFromResponse (gemini_image_generator.go). -/
def extractImageFromResponse (resp : Option GenResponse) : Except String (List Nat) :=
  match resp with
  | none => .error "empty response from Gemini"
  | some r =>
    match r.candidates with
    | [] => .error "empty response from Gemini"
    | c :: _ =>
      match c.content with
      | none => .error "no content parts in Gemini response"
      | some [] => .error "no content parts in Gemini response"
      | some parts =>
        match findInlineData parts with
        | some d => .ok d
        | none => .error "no image data found in Gemini response"

/-- External effects of GeminiImageGenerator.Generate: the GenerateContent
call (API error, or a possibly-nil response) and saveImage. -/
structure GeminiExternal where
  generateContent : Except String (Option GenResponse)
  save : List Nat → Except String String

/-- GeminiImageGenerator.Generate: identical guard shape to the SD
generator around the Gemini call, response extraction and save. -/
def geminiGenerate (generating : Bool) (ext : GeminiExternal) : StageResult :=
  let acq := guardTryAcquire generating
  if acq.2 then
    match ext.generateContent with
    | .error e => ⟨false, true, "", some e⟩
    | .ok resp =>
      match extractImageFromResponse resp with
      | .error e => ⟨false, true, "", some e⟩
      | .ok bytes =>
        match ext.save bytes with
        | .error e => ⟨false, true, "", some e⟩
        | .ok filename => ⟨false, true, filename, none⟩
  else ⟨acq.1, false, "", none⟩

/-- Minimal JSON string escaping of encoding/json (quote, backslash, the
three named control escapes and the HTML-escaped characters); other control
characters do not occur in this pipeline's data. -/
def jsonEscapeChar (c : Char) : String :=
  if c = '"' then "\\\""
  else if c = '\\' then "\\\\"
  else if c = '\n' then "\\n"
  else if c = '\r' then "\\r"
  else if c = '\t' then "\\t"
  else if c = '<' then "\\u003c"
  else if c = '>' then "\\u003e"
  else if c = '&' then "\\u0026"
  else String.mk [c]

/-- JSON escaping of a whole string. -/
def jsonEscape (s : String) : String :=
  s.data.foldl (fun acc c => acc ++ jsonEscapeChar c) ""

/-- json.Marshal of one Message. -/
def renderMessageJson (m : Message) : String :=
  "\x7b\"role\":\"" ++ jsonEscape m.role ++ "\",\"content\":\"" ++
    jsonEscape m.content ++ "\"\x7d"

/-- json.Marshal of a message slice (a nil slice would render "null" in Go;
the pipeline only marshals slices produced by TailMessages). -/
def renderMessagesJson (msgs : List Message) : String :=
  "[" ++ String.intercalate "," (msgs.map renderMessageJson) ++ "]"

/-- promptGeneratorBase.buildUserPrompt (prompt_generator.go). -/
def buildUserPrompt (messages : List Message) : String :=
  "Here is the recent conversation:\n" ++ renderMessagesJson messages ++
    "\n\nGenerate an anime-style image prompt based on this conversation."

/-- Outcome of one prompt-stage Generate call: whether the external
collaborator was invoked and the Go return pair (text, error). -/
structure PromptStageResult where
  externalCalled : Bool
  text : String
  error : Option String
deriving DecidableEq

/-- OllamaPromptGenerator.Generate (ollama_prompt_generator.go).  The
source method has no busy flag at all, so the inFlight argument — whether
another call to this stage is still outstanding — is never consulted by
the body; compare the generating check in sdGenerate.  The chat oracle
maps the user prompt to the collaborator's reply (request marshalling
cannot fail; HTTP errors, non-200 statuses and decode failures are its
error case; success is the decoded result.Message.Content). -/
def ollamaGenerate (inFlight : Bool) (messages : List Message)
    (chat : String → Except String String) : PromptStageResult :=
  let _ := inFlight
  let userPrompt := buildUserPrompt messages
  match chat userPrompt with
  | .error e => ⟨true, "", some e⟩
  | .ok content =>
    let text := trimSpaceStr content
    if text = "" then ⟨true, "", some "empty response from ollama"⟩
    else ⟨true, text, none⟩

/-- JSON values as encoding/json sees them; numbers keep their lexeme, the
numeric value never matters to this pipeline. -/
inductive Json where
  | null
  | boolean (b : Bool)
  | num (lexeme : String)
  | str (s : String)
  | arr (elems : List Json)
  | obj (fields : List (String × Json))

/-- JSON insignificant whitespace. -/
def isJsonWs (c : Char) : Bool :=
  c = ' ' || c = '\t' || c = '\n' || c = '\r'

/-- Drop leading JSON whitespace. -/
def skipWs : List Char → List Char
  | [] => []
  | c :: cs => if isJsonWs c then skipWs cs else c :: cs

/-- Value of one hexadecimal digit. -/
def hexVal (c : Char) : Option Nat :=
  if '0' ≤ c ∧ c ≤ '9' then some (c.toNat - '0'.toNat)
  else if 'a' ≤ c ∧ c ≤ 'f' then some (c.toNat - 'a'.toNat + 10)
  else if 'A' ≤ c ∧ c ≤ 'F' then some (c.toNat - 'A'.toNat + 10)
  else none

/-- Parse the remainder of a JSON string literal after the opening quote,
returning the decoded string and the rest of the input. -/
def parseStringRest : Nat → List Char → List Char → Option (String × List Char)
  | 0, _, _ => none
  | _ + 1, [], _ => none
  | fuel + 1, c :: cs, acc =>
    if c = '"' then some (⟨acc.reverse⟩, cs)
    else if c = '\\' then
      match cs with
      | [] => none
      | e :: cs' =>
        if e = '"' then parseStringRest fuel cs' ('"' :: acc)
        else if e = '\\' then parseStringRest fuel cs' ('\\' :: acc)
        else if e = '/' then parseStringRest fuel cs' ('/' :: acc)
        else if e = 'n' then parseStringRest fuel cs' ('\n' :: acc)
        else if e = 't' then parseStringRest fuel cs' ('\t' :: acc)
        else if e = 'r' then parseStringRest fuel cs' ('\r' :: acc)
        else if e = 'b' then parseStringRest fuel cs' ('\x08' :: acc)
        else if e = 'f' then parseStringRest fuel cs' ('\x0c' :: acc)
        else if e = 'u' then
          match cs' with
          | h1 :: h2 :: h3 :: h4 :: cs'' =>
            match hexVal h1, hexVal h2, hexVal h3, hexVal h4 with
            | some a, some b, some c2, some d =>
              parseStringRest fuel cs'' (Char.ofNat (((a * 16 + b) * 16 + c2) * 16 + d) :: acc)
            | _, _, _, _ => none
          | _ => none
        else none
    else parseStringRest fuel cs (c :: acc)

/-- Characters a JSON number lexeme may contain. -/
def isNumChar (c : Char) : Bool :=
  ('0' ≤ c && c ≤ '9') || c = '-' || c = '+' || c = '.' || c = 'e' || c = 'E'

/-- Match a literal keyword tail such as rue of true. -/
def stripToken : List Char → List Char → Option (List Char)
  | [], rest => some rest
  | t :: ts, c :: rest => if c = t then stripToken ts rest else none
  | _ :: _, [] => none

mutual

/-- Parse one JSON value (fuel bounds the recursion; one unit is spent per
nesting level and per aggregate element, each of which consumes input). -/
def parseValue : Nat → List Char → Option (Json × List Char)
  | 0, _ => none
  | fuel + 1, cs =>
    match skipWs cs with
    | [] => none
    | c :: rest =>
      if c = '"' then
        (parseStringRest (rest.length + 1) rest []).map (fun p => (.str p.1, p.2))
      else if c = '\x7b' then parseObjStart fuel rest
      else if c = '[' then parseArrStart fuel rest
      else if c = 't' then (stripToken ['r', 'u', 'e'] rest).map (fun r => (.boolean true, r))
      else if c = 'f' then (stripToken ['a', 'l', 's', 'e'] rest).map (fun r => (.boolean false, r))
      else if c = 'n' then (stripToken ['u', 'l', 'l'] rest).map (fun r => (.null, r))
      else if c = '-' ∨ ('0' ≤ c ∧ c ≤ '9') then
        let numCs := (c :: rest).takeWhile isNumChar
        some (.num ⟨numCs⟩, (c :: rest).drop numCs.length)
      else none

/-- Parse a JSON array after the opening bracket. -/
def parseArrStart : Nat → List Char → Option (Json × List Char)
  | 0, _ => none
  | fuel + 1, cs =>
    match skipWs cs with
    | ']' :: rest => some (.arr [], rest)
    | _ => parseArrElems fuel cs []

/-- Parse the elements of a non-empty JSON array. -/
def parseArrElems : Nat → List Char → List Json → Option (Json × List Char)
  | 0, _, _ => none
  | fuel + 1, cs, acc =>
    match parseValue fuel cs with
    | none => none
    | some (v, rest) =>
      match skipWs rest with
      | ',' :: rest' => parseArrElems fuel rest' (v :: acc)
      | ']' :: rest' => some (.arr (v :: acc).reverse, rest')
      | _ => none

/-- Parse a JSON object after the opening brace. -/
def parseObjStart : Nat → List Char → Option (Json × List Char)
  | 0, _ => none
  | fuel + 1, cs =>
    match skipWs cs with
    | '\x7d' :: rest => some (.obj [], rest)
    | _ => parseObjFields fuel cs []

/-- Parse the members of a non-empty JSON object. -/
def parseObjFields : Nat → List Char → List (String × Json) → Option (Json × List Char)
  | 0, _, _ => none
  | fuel + 1, cs, acc =>
    match skipWs cs with
    | '"' :: rest =>
      match parseStringRest (rest.length + 1) rest [] with
      | none => none
      | some (key, rest1) =>
        match skipWs rest1 with
        | ':' :: rest2 =>
          match parseValue fuel rest2 with
          | none => none
          | some (v, rest3) =>
            match skipWs rest3 with
            | ',' :: rest4 => parseObjFields fuel rest4 ((key, v) :: acc)
            | '\x7d' :: rest4 => some (.obj ((key, v) :: acc).reverse, rest4)
            | _ => none
        | _ => none
    | _ => none

end

/-- json.Unmarshal of one complete input: exactly one value, surrounded
only by whitespace. -/
def parseJsonTop (s : String) : Option Json :=
  let cs := skipWs s.data
  match parseValue (cs.length + 2) cs with
  | some (v, rest) => if skipWs rest = [] then some v else none
  | none => none

/-- Field lookup with encoding/json's duplicate-key rule: the last
occurrence of the key wins. -/
def objLookup (fields : List (String × Json)) (key : String) : Option Json :=
  match fields with
  | [] => none
  | (k, v) :: rest =>
    match objLookup rest key with
    | some v' => some v'
    | none => if k = key then some v else none

/-- json.Unmarshal of a value into rawEntry (parser.go): the value must be
an object (or null, leaving the zero struct); the type field must be a
string when present and non-null, else the whole Unmarshal errors; the
message field is kept raw, none meaning absent (a nil RawMessage). -/
def unmarshalRawEntry (v : Json) : Option (String × Option Json) :=
  match v with
  | .null => some ("", none)
  | .obj fields =>
    (match objLookup fields "type" with
     | some (.str s) => some s
     | some .null => some ""
     | none => some ""
     | some _ => none).map (fun ty => (ty, objLookup fields "message"))
  | _ => none

/-- json.Unmarshal of a raw message value into rawMessage: object or null;
the content field is kept raw, none meaning absent. -/
def unmarshalRawMessage (v : Json) : Option (Option Json) :=
  match v with
  | .null => some none
  | .obj fields => some (objLookup fields "content")
  | _ => none

/-- parseUserEntry (parser.go): a user record whose message content is a
JSON string yields a user turn when the trimmed text is non-empty; a
content hold of any other shape (absent, list, object, number) yields
nothing. -/
def parseUserEntry (raw : Option Json) : Option Message :=
  match raw with
  | none => none
  | some v =>
    match unmarshalRawMessage v with
    | none => none
    | some contentRaw =>
      match contentRaw with
      | some (.str s) =>
        let t := trimSpaceStr s
        if t = "" then none else some ⟨"user", t⟩
      | _ => none

/-- json.Unmarshal of one content-array element into contentBlock: an
object whose type and text fields are strings when present and non-null
(null or an absent message field leaves the zero value ""), or null. -/
def unmarshalContentBlock (v : Json) : Option (String × String) :=
  match v with
  | .null => some ("", "")
  | .obj fields =>
    let ty := match objLookup fields "type" with
      | some (.str s) => some s
      | some .null => some ""
      | none => some ""
      | some _ => none
    let tx := match objLookup fields "text" with
      | some (.str s) => some s
      | some .null => some ""
      | none => some ""
      | some _ => none
    match ty, tx with
    | some a, some b => some (a, b)
    | _, _ => none
  | _ => none

/-- parseAssistantEntry (parser.go): the content must unmarshal into a
slice of content blocks (an array of well-formed blocks, or null giving
the empty slice); text blocks with non-empty trimmed text are joined with
newlines; no such block means no turn. -/
def parseAssistantEntry (raw : Option Json) : Option Message :=
  match raw with
  | none => none
  | some v =>
    match unmarshalRawMessage v with
    | none => none
    | some contentRaw =>
      let blocks? : Option (List (String × String)) :=
        match contentRaw with
        | none => none
        | some .null => some []
        | some (.arr xs) => xs.mapM unmarshalContentBlock
        | some _ => none
      match blocks? with
      | none => none
      | some blocks =>
        let textParts := blocks.filterMap (fun b =>
          if b.1 = "text" && trimSpaceStr b.2 ≠ "" then some (trimSpaceStr b.2) else none)
        if textParts = [] then none
        else some ⟨"assistant", joinWith "\n" textParts⟩

/-- Accumulator loop of splitLines. -/
def splitLinesAux : List Char → List Char → List String
  | [], acc => [⟨acc.reverse⟩]
  | c :: cs, acc =>
    if c = '\n' then ⟨acc.reverse⟩ :: splitLinesAux cs []
    else splitLinesAux cs (c :: acc)

/-- strings.Split on the newline character (empty segments included). -/
def splitLines (s : String) : List String :=
  splitLinesAux s.data []

/-- One iteration of ParseJSONL's loop: trim the line, skip empty lines and
lines that fail to parse, dispatch on the type tag. -/
def lineToMessage (line : String) : Option Message :=
  let l := trimSpaceStr line
  if l = "" then none
  else
    match parseJsonTop l with
    | none => none
    | some v =>
      match unmarshalRawEntry v with
      | none => none
      | some (ty, msg) =>
        if ty = "user" then parseUserEntry msg
        else if ty = "assistant" then parseAssistantEntry msg
        else none

/-- ParseJSONL (parser.go): parse each line independently, keeping the
user and assistant turns in order. -/
def ParseJSONL (data : String) : List Message :=
  (splitLines data).filterMap lineToMessage

/-- The qualifying-event predicate of the dispatcher goroutine: the parsed
message list is non-empty and its last turn is from the assistant. -/
def qualifies (messages : List Message) : Bool :=
  match messages.getLast? with
  | some last => decide (last.role = "assistant")
  | none => false

/-- The scenario buffer of the spec: one user line with string content
hello, then one assistant line with a single text block hi there. -/
def parserScenarioBuf : String :=
  "\x7b\"type\":\"user\",\"message\":\x7b\"content\":\"hello\"\x7d\x7d\n" ++
  "\x7b\"type\":\"assistant\",\"message\":\x7b\"content\":[\x7b\"type\":\"text\",\"text\":\"hi there\"\x7d]\x7d\x7d"

/-- Configuration of the dispatcher goroutine: cfg.GenerateInterval and
cfg.RecentMessages. -/
structure RLConfig where
  interval : Nat
  recentN : Nat
deriving DecidableEq

/-- One incoming file event, already parsed: the arrival time, the result
of ParseJSONL on the file's accumulated bytes, and the file path. -/
structure DEvent where
  time : Nat
  messages : List Message
  path : String
deriving DecidableEq

/-- The dispatcher goroutine's rate-limiting state: lastGenTime (none for
the zero time.Time, whose age always exceeds the interval), the pending
payload pendingRecent/pendingPath, and the armed deferred timer's absolute
fire deadline. -/
structure RLState where
  lastGen : Option Nat
  pending : Option (List Message × String)
  timer : Option Nat
deriving DecidableEq

/-- One invocation of generatePrompt: its time, the recent-messages
payload, the session path, and whether it was an immediate dispatch (true)
or a deferred-timer dispatch (false). -/
structure Dispatch where
  time : Nat
  recent : List Message
  path : String
  immediate : Bool
deriving DecidableEq

/-- The timerCh branch of the dispatcher's select loop, processed at the
deadline tg: with a pending payload, dispatch it unless no WebSocket
client is connected (in which case the payload is discarded); with no
pending payload the fire is a no-op. -/
def fireTimer (viewers : Nat → Bool) (s : RLState) (tg : Nat) :
    RLState × Option Dispatch :=
  match s.pending with
  | none => (⟨s.lastGen, none, none⟩, none)
  | some (recent, path) =>
    if viewers tg then (⟨some tg, none, none⟩, some ⟨tg, recent, path, false⟩)
    else (⟨s.lastGen, none, none⟩, none)

/-- The watcher-event branch of the select loop: skip non-qualifying
parses, skip when no client is connected, dispatch immediately when the
interval has elapsed since lastGenTime, otherwise store the payload and
re-arm the single deferred timer for the remaining cooldown. -/
def handleEvent (cfg : RLConfig) (viewers : Nat → Bool) (s : RLState) (e : DEvent) :
    RLState × Option Dispatch :=
  if qualifies e.messages then
    if viewers e.time then
      match s.lastGen with
      | none =>
        (⟨some e.time, none, none⟩,
         some ⟨e.time, TailMessages e.messages cfg.recentN, e.path, true⟩)
      | some lg =>
        if cfg.interval ≤ e.time - lg then
          (⟨some e.time, none, none⟩,
           some ⟨e.time, TailMessages e.messages cfg.recentN, e.path, true⟩)
        else
          (⟨some lg, some (TailMessages e.messages cfg.recentN, e.path),
            some (e.time + (cfg.interval - (e.time - lg)))⟩, none)
    else (s, none)
  else (s, none)

/-- Process an armed timer whose deadline is at or before time t (the
fire was delivered on timerCh before the next file event). -/
def dueFire (viewers : Nat → Bool) (s : RLState) (t : Nat) :
    RLState × Option Dispatch :=
  match s.timer with
  | some tg => if tg ≤ t then fireTimer viewers s tg else (s, none)
  | none => (s, none)

/-- One iteration of the select loop for a file event: first any due timer
fire, then the event itself. -/
def stepEvent (cfg : RLConfig) (viewers : Nat → Bool) (s : RLState) (e : DEvent) :
    RLState × List Dispatch :=
  let fr := dueFire viewers s e.time
  let he := handleEvent cfg viewers fr.1 e
  (he.1, fr.2.toList ++ he.2.toList)

/-- Run the dispatcher over a chronological event trace and let any timer
still armed after the last event reach its deadline (the process keeps
running, so an armed timer always eventually fires).  Returns every
generatePrompt invocation in order. -/
def runDispatcher (cfg : RLConfig) (viewers : Nat → Bool) :
    RLState → List DEvent → List Dispatch
  | s, [] =>
    (match s.timer with
     | some tg => (fireTimer viewers s tg).2.toList
     | none => [])
  | s, e :: es =>
    let st := stepEvent cfg viewers s e
    st.2 ++ runDispatcher cfg viewers st.1 es

/-- The dispatcher's state at process start. -/
def initialRLState : RLState := ⟨none, none, none⟩

/-- Dispatch-time spacing: a follows b only after a full interval. -/
def gapOK (cfg : RLConfig) (a b : Dispatch) : Prop :=
  a.time + cfg.interval ≤ b.time

instance (cfg : RLConfig) : DecidableRel (gapOK cfg) :=
  fun a b => Nat.decLe (a.time + cfg.interval) b.time

/-- Dispatch chain anchored at the time of the previous dispatch, if any:
each dispatch is at least one interval after its predecessor. -/
def chainFrom (cfg : RLConfig) : Option Nat → List Dispatch → Prop
  | _, [] => True
  | none, d :: ds => chainFrom cfg (some d.time) ds
  | some lg, d :: ds => lg + cfg.interval ≤ d.time ∧ chainFrom cfg (some d.time) ds

/-- The anchor after emitting a dispatch list. -/
def lgAfter (lg : Option Nat) (ds : List Dispatch) : Option Nat :=
  match ds.getLast? with
  | some d => some d.time
  | none => lg

/-- Invariant of the dispatcher state at frontier time lb: lastGenTime
never exceeds the frontier, and an armed timer's deadline is exactly
lastGenTime plus the interval. -/
def StateOK (cfg : RLConfig) (s : RLState) (lb : Nat) : Prop :=
  (∀ lg, s.lastGen = some lg → lg ≤ lb) ∧
  (∀ tg, s.timer = some tg → ∃ lg, s.lastGen = some lg ∧ tg = lg + cfg.interval)

/-- Payload carried by the deferred dispatch at the end of a burst: the
pending payload p superseded by each later event in turn. -/
def lastPayload (cfg : RLConfig) (p : List Message × String) :
    List DEvent → List Message × String
  | [] => p
  | e :: es => lastPayload cfg (TailMessages e.messages cfg.recentN, e.path) es

/-- A single qualifying assistant turn used by concrete dispatcher runs. -/
def soloAssistant (text : String) : List Message :=
  [⟨"assistant", text⟩]

/-!
Theorems.  Helper lemmas come first, then one theorem per claim (with a
witness or counterexample where required).
-/

theorem sdGenerate_accept (prompt extra : String) (ext : SDExternal) :
    (sdGenerate false prompt extra ext).flagAfter = false
    ∧ (sdGenerate false prompt extra ext).externalCalled = true := by
  cases h : ext.txt2img (sdFullPrompt prompt extra) with
  | error e => simp [sdGenerate, guardTryAcquire, h]
  | ok images =>
    cases images with
    | nil => simp [sdGenerate, guardTryAcquire, h]
    | cons img rest =>
      cases h2 : ext.b64decode img with
      | error e => simp [sdGenerate, guardTryAcquire, h, h2]
      | ok bytes =>
        cases h3 : ext.save bytes with
        | error e => simp [sdGenerate, guardTryAcquire, h, h2, h3]
        | ok fn => simp [sdGenerate, guardTryAcquire, h, h2, h3]

theorem geminiGenerate_accept (ext : GeminiExternal) :
    (geminiGenerate false ext).flagAfter = false
    ∧ (geminiGenerate false ext).externalCalled = true := by
  cases h : ext.generateContent with
  | error e => simp [geminiGenerate, guardTryAcquire, h]
  | ok resp =>
    cases h2 : extractImageFromResponse resp with
    | error e => simp [geminiGenerate, guardTryAcquire, h, h2]
    | ok bytes =>
      cases h3 : ext.save bytes with
      | error e => simp [geminiGenerate, guardTryAcquire, h, h2, h3]
      | ok fn => simp [geminiGenerate, guardTryAcquire, h, h2, h3]

theorem ollamaGenerate_called (inFlight : Bool) (messages : List Message)
    (chat : String → Except String String) :
    (ollamaGenerate inFlight messages chat).externalCalled = true := by
  cases h : chat (buildUserPrompt messages) with
  | error e => simp [ollamaGenerate, h]
  | ok content =>
    by_cases ht : trimSpaceStr content = "" <;> simp [ollamaGenerate, h, ht]

/-- Claim C4 counterexample: a prompt-stage call made while another call
is outstanding (inFlight true) still performs the external collaborator
call and returns the collaborator's text — the source prompt generators
have no stage guard, so the claimed skipped outcome never happens. -/
theorem C4_counterexample :
    (ollamaGenerate true [⟨"assistant", "hi"⟩] (fun _ => .ok " a cat ")).externalCalled = true
    ∧ ollamaGenerate true [⟨"assistant", "hi"⟩] (fun _ => .ok " a cat ")
        = ⟨true, "a cat", none⟩ := by
  decide

/-- Claim C4, amended: the image-stage guard does refuse an overlapping
call with the skipped outcome (empty filename, nil error, no external
call, never an error); the prompt-stage has no guard and performs the
external collaborator call on every invocation, outstanding previous call
or not. -/
theorem C4_stage_guard (prompt extra : String) (ext : SDExternal) (inFlight : Bool)
    (messages : List Message) (chat : String → Except String String) :
    sdGenerate true prompt extra ext = ⟨true, false, "", none⟩
    ∧ (ollamaGenerate inFlight messages chat).externalCalled = true :=
  ⟨rfl, ollamaGenerate_called inFlight messages chat⟩

/-- Claim C5: for both image generators, an accepted call marks the busy
flag before the external call (guardTryAcquire on a free guard yields the
flag set and acceptance), the flag is false again on every exit path of an
accepted call, and a call made after any previous call completed is
accepted and reaches the external collaborator. -/
theorem C5_busy_flag_lifecycle (prompt extra prompt2 extra2 : String)
    (ext ext2 : SDExternal) (gext gext2 : GeminiExternal) :
    guardTryAcquire false = (true, true)
    ∧ (sdGenerate false prompt extra ext).flagAfter = false
    ∧ (geminiGenerate false gext).flagAfter = false
    ∧ (sdGenerate ((sdGenerate false prompt extra ext).flagAfter) prompt2 extra2 ext2).externalCalled
        = true
    ∧ (geminiGenerate ((geminiGenerate false gext).flagAfter) gext2).externalCalled = true := by
  refine ⟨rfl, (sdGenerate_accept prompt extra ext).1, (geminiGenerate_accept gext).1, ?_, ?_⟩
  · rw [(sdGenerate_accept prompt extra ext).1]
    exact (sdGenerate_accept prompt2 extra2 ext2).2
  · rw [(geminiGenerate_accept gext).1]
    exact (geminiGenerate_accept gext2).2

/-- Claim C6: the incremental read is idempotent — a second read with no
intervening write returns no new bytes; a successful read returns exactly
the bytes past the consumed offset and advances the offset by their
count; an empty read is discarded with no state change. -/
theorem C6_incremental_reader (offsets : String → Nat) (path : String) (content : List Nat) :
    (readNewData (readNewData offsets path content false).1 path content false).2 = none
    ∧ (∀ d, (readNewData offsets path content false).2 = some d →
        d = content.drop (offsets path)
        ∧ (readNewData offsets path content false).1 path = offsets path + d.length)
    ∧ (content.drop (offsets path) = [] →
        readNewData offsets path content false = (offsets, none)) := by
  by_cases h : (content.drop (offsets path)).length = 0
  · refine ⟨?_, ?_, ?_⟩
    · simp [readNewData, h]
    · intro d hd
      simp [readNewData, h] at hd
    · intro _
      simp [readNewData, h]
  · have hlt : offsets path < content.length := by
      have := List.length_drop (offsets path) content
      omega
    refine ⟨?_, ?_, ?_⟩
    · simp only [readNewData, if_neg h, Bool.false_eq_true, if_false]
      have hupd : (fun p => if p = path then offsets path + (content.drop (offsets path)).length
          else offsets p) path = offsets path + (content.drop (offsets path)).length := by
        simp
      simp only [hupd, List.length_drop]
      have : content.length - (offsets path + (content.length - offsets path)) = 0 := by omega
      simp [this]
    · intro d hd
      simp only [readNewData, if_neg h, Bool.false_eq_true, if_false] at hd
      obtain rfl : d = content.drop (offsets path) := by
        simpa using hd.symm
      refine ⟨rfl, ?_⟩
      have hne : ¬(content.length - offsets path = 0) := by omega
      simp [readNewData, List.length_drop, hne]
    · intro hempty
      rw [hempty] at h
      simp at h

/-- Claim C6 witness at a concrete file: content 1,2,3 with one byte
already consumed, and a fully-consumed file for the empty-read case. -/
theorem C6_witness :
    ((readNewData (fun _ => 1) "f" [1, 2, 3] false).2 = some [2, 3]
      ∧ ([2, 3] : List Nat) = List.drop 1 [1, 2, 3]
      ∧ (readNewData (fun _ => 1) "f" [1, 2, 3] false).1 "f" = 1 + 2)
    ∧ (List.drop 5 ([1, 2, 3] : List Nat) = []
      ∧ readNewData (fun _ => 5) "g" [1, 2, 3] false = ((fun _ => 5), none)) := by
  refine ⟨⟨by decide, ?_, ?_⟩, by decide, ?_⟩
  · exact ((C6_incremental_reader (fun _ => 1) "f" [1, 2, 3]).2.1 [2, 3] (by decide)).1
  · exact ((C6_incremental_reader (fun _ => 1) "f" [1, 2, 3]).2.1 [2, 3] (by decide)).2
  · exact (C6_incremental_reader (fun _ => 5) "g" [1, 2, 3]).2.2 (by decide)

theorem extractTitle_eq_spec (messages : List Message) (maxLen : Nat) :
    ExtractTitle messages maxLen = extractTitleSpec messages maxLen := by
  induction messages with
  | nil => rfl
  | cons m rest ih =>
    by_cases h : isTitleMsg m = true
    · simp only [ExtractTitle, extractTitleSpec, if_pos h, List.find?_cons_of_pos _ h]
    · simp only [ExtractTitle, extractTitleSpec, if_neg h, List.find?_cons_of_neg _ h]
      rw [ih, extractTitleSpec]

/-- Claim C8: title extraction returns the text of the first user turn not
starting with the reserved marker, truncated with an ellipsis exactly when
it exceeds maxLen runes, and the empty string when no such turn exists;
the scenario over tool-output, draw-a-cat and an assistant turn with
maxLen 20 returns draw a cat untruncated. -/
theorem C8_extract_title (messages : List Message) (maxLen : Nat) (m : Message) :
    ExtractTitle messages maxLen = extractTitleSpec messages maxLen
    ∧ (messages.find? isTitleMsg = none → ExtractTitle messages maxLen = "")
    ∧ (messages.find? isTitleMsg = some m → maxLen < m.content.length →
        ExtractTitle messages maxLen = ⟨m.content.data.take maxLen⟩ ++ "...")
    ∧ (messages.find? isTitleMsg = some m → m.content.length ≤ maxLen →
        ExtractTitle messages maxLen = m.content)
    ∧ ExtractTitle [⟨"user", "<tool-output>"⟩, ⟨"user", "draw a cat"⟩, ⟨"assistant", "..."⟩] 20
        = "draw a cat" := by
  refine ⟨extractTitle_eq_spec _ _, ?_, ?_, ?_, by decide⟩
  · intro h
    rw [extractTitle_eq_spec, extractTitleSpec, h]
  · intro h hlt
    rw [extractTitle_eq_spec, extractTitleSpec, h]
    simp [hlt]
  · intro h hle
    rw [extractTitle_eq_spec, extractTitleSpec, h]
    simp [Nat.not_lt.mpr hle]

/-- Claim C8 witness: truncation fires on a two-rune title at maxLen 1. -/
theorem C8_witness :
    ([(⟨"user", "hi"⟩ : Message)].find? isTitleMsg = some ⟨"user", "hi"⟩
      ∧ 1 < (Message.mk "user" "hi").content.length)
    ∧ ExtractTitle [⟨"user", "hi"⟩] 1
        = ⟨(Message.mk "user" "hi").content.data.take 1⟩ ++ "..." :=
  ⟨⟨by decide, by decide⟩,
   (C8_extract_title [⟨"user", "hi"⟩] 1 ⟨"user", "hi"⟩).2.2.1 (by decide) (by decide)⟩

/-- Claim C9: when the png count exceeds the configured maximum, cleanup
removes exactly count-minus-maximum artifacts, every removed artifact is
no newer than every kept one, and exactly the maximum remain; at or below
the maximum nothing is deleted; the 35-artifact scenario with maxImages 30
deletes exactly the 5 oldest. -/
theorem C9_retention_cleanup (entries : List DirEntry) (maxImages : Nat) :
    ((pngFiles entries).length ≤ maxImages → cleanupOldImages entries maxImages = [])
    ∧ (maxImages < (pngFiles entries).length →
        (cleanupOldImages entries maxImages).length = (pngFiles entries).length - maxImages
        ∧ ((List.insertionSort byTime (pngFiles entries)).drop
            ((pngFiles entries).length - maxImages)).length = maxImages
        ∧ (∀ d ∈ (List.insertionSort byTime (pngFiles entries)).take
              ((pngFiles entries).length - maxImages),
           ∀ k ∈ (List.insertionSort byTime (pngFiles entries)).drop
              ((pngFiles entries).length - maxImages), d.modTime ≤ k.modTime))
    ∧ cleanupOldImages retentionScenarioEntries 30
        = ["img0.png", "img1.png", "img2.png", "img3.png", "img4.png"] := by
  have hlen : (List.insertionSort byTime (pngFiles entries)).length = (pngFiles entries).length :=
    (List.perm_insertionSort byTime (pngFiles entries)).length_eq
  refine ⟨?_, ?_, by decide⟩
  · intro h
    simp [cleanupOldImages, h]
  · intro h
    have hnot : ¬ (pngFiles entries).length ≤ maxImages := by omega
    refine ⟨?_, ?_, ?_⟩
    · rw [cleanupOldImages, if_neg hnot, List.length_map, List.length_take, hlen]
      omega
    · rw [List.length_drop, hlen]
      omega
    · have hs := List.sorted_insertionSort byTime (pngFiles entries)
      have hsplit := (List.take_append_drop
        ((pngFiles entries).length - maxImages) (List.insertionSort byTime (pngFiles entries))).symm
      rw [hsplit] at hs
      exact fun d hd k hk => (List.pairwise_append.mp hs).2.2 d hd k hk

/-- Claim C9 witness: the at-or-below branch on an empty directory and the
above-maximum branch on the 35-artifact scenario. -/
theorem C9_witness :
    ((pngFiles []).length ≤ 3 ∧ cleanupOldImages [] 3 = [])
    ∧ (30 < (pngFiles retentionScenarioEntries).length
      ∧ (cleanupOldImages retentionScenarioEntries 30).length
          = (pngFiles retentionScenarioEntries).length - 30) :=
  ⟨⟨by decide, (C9_retention_cleanup [] 3).1 (by decide)⟩,
   ⟨by decide, ((C9_retention_cleanup retentionScenarioEntries 30).2.1 (by decide)).1⟩⟩

/-- Claim C10: every name deleted by cleanup comes from a non-directory
entry whose name ends in .png, and prepending a directory or a non-png
entry changes neither the count pressure nor the deletions. -/
theorem C10_cleanup_png_only (entries : List DirEntry) (maxImages : Nat) (e : DirEntry) :
    (∀ d ∈ cleanupOldImages entries maxImages,
        ∃ x ∈ entries, x.name = d ∧ x.isDir = false ∧ strFinishesWith x.name ".png" = true)
    ∧ (e.isDir = true ∨ strFinishesWith e.name ".png" = false →
        cleanupOldImages (e :: entries) maxImages = cleanupOldImages entries maxImages) := by
  constructor
  · intro d hd
    unfold cleanupOldImages at hd
    by_cases h : (pngFiles entries).length ≤ maxImages
    · simp [h] at hd
    · rw [if_neg h] at hd
      obtain ⟨x, hx_take, rfl⟩ := List.mem_map.mp hd
      have hx_srt : x ∈ List.insertionSort byTime (pngFiles entries) :=
        List.mem_of_mem_take hx_take
      have hx_files : x ∈ pngFiles entries :=
        (List.perm_insertionSort byTime (pngFiles entries)).mem_iff.mp hx_srt
      have hmem := List.mem_filter.mp hx_files
      have hb := hmem.2
      simp only [Bool.and_eq_true, Bool.not_eq_true'] at hb
      exact ⟨x, hmem.1, rfl, hb.1.1, hb.1.2⟩
  · intro h
    have hpe : (!e.isDir && strFinishesWith e.name ".png" && !e.infoErr) = false := by
      rcases h with h | h <;> simp [h]
    simp [cleanupOldImages, pngFiles, List.filter_cons, hpe]

/-- Claim C10 witness: a deleted artifact of the retention scenario traces
back to a png entry, and a prepended text file leaves cleanup unchanged. -/
theorem C10_witness :
    ("img0.png" ∈ cleanupOldImages retentionScenarioEntries 30
      ∧ ∃ x ∈ retentionScenarioEntries,
          x.name = "img0.png" ∧ x.isDir = false ∧ strFinishesWith x.name ".png" = true)
    ∧ (((DirEntry.mk "a.txt" false 0 false).isDir = true
        ∨ strFinishesWith (DirEntry.mk "a.txt" false 0 false).name ".png" = false)
      ∧ cleanupOldImages [⟨"a.txt", false, 0, false⟩] 0 = cleanupOldImages [] 0) :=
  ⟨⟨by decide,
    (C10_cleanup_png_only retentionScenarioEntries 30 ⟨"a.txt", false, 0, false⟩).1
      "img0.png" (by decide)⟩,
   ⟨Or.inr (by decide),
    (C10_cleanup_png_only [] 0 ⟨"a.txt", false, 0, false⟩).2 (Or.inr (by decide))⟩⟩

theorem chainFrom_chain (cfg : RLConfig) :
    ∀ (ds : List Dispatch) (lg : Option Nat), chainFrom cfg lg ds →
      List.Chain' (gapOK cfg) ds := by
  intro ds
  induction ds with
  | nil => intro lg _; simp
  | cons d ds2 ih =>
    intro lg h
    have hTail : chainFrom cfg (some d.time) ds2 := by
      cases lg with
      | none => exact h
      | some x => exact h.2
    cases ds2 with
    | nil => simp
    | cons d2 ds3 => exact List.chain'_cons.mpr ⟨hTail.1, ih (some d.time) hTail⟩

theorem lgAfter_cons (lg : Option Nat) (d : Dispatch) (ds : List Dispatch) :
    lgAfter lg (d :: ds) = lgAfter (some d.time) ds := by
  cases ds with
  | nil => rfl
  | cons d2 ds2 =>
    unfold lgAfter
    rw [List.getLast?_cons_cons]
    cases h : (d2 :: ds2).getLast? with
    | some x => rfl
    | none => simp at h

theorem lgAfter_append (lg : Option Nat) (xs ys : List Dispatch) :
    lgAfter lg (xs ++ ys) = lgAfter (lgAfter lg xs) ys := by
  induction xs generalizing lg with
  | nil => rfl
  | cons d xs2 ih => rw [List.cons_append, lgAfter_cons, lgAfter_cons, ih]

theorem chainFrom_append (cfg : RLConfig) :
    ∀ (xs ys : List Dispatch) (lg : Option Nat),
      chainFrom cfg lg xs → chainFrom cfg (lgAfter lg xs) ys →
      chainFrom cfg lg (xs ++ ys) := by
  intro xs
  induction xs with
  | nil => intro ys lg _ hy; simpa [lgAfter] using hy
  | cons d xs2 ih =>
    intro ys lg hx hy
    rw [lgAfter_cons] at hy
    cases lg with
    | none =>
      show chainFrom cfg (some d.time) (xs2 ++ ys)
      exact ih ys (some d.time) hx hy
    | some x =>
      exact ⟨hx.1, ih ys (some d.time) hx.2 hy⟩

theorem handleEvent_spec (cfg : RLConfig) (viewers : Nat → Bool) (s : RLState) (e : DEvent)
    (hOK : StateOK cfg s e.time) :
    chainFrom cfg s.lastGen (handleEvent cfg viewers s e).2.toList
    ∧ (handleEvent cfg viewers s e).1.lastGen
        = lgAfter s.lastGen (handleEvent cfg viewers s e).2.toList
    ∧ StateOK cfg (handleEvent cfg viewers s e).1 e.time := by
  obtain ⟨hOK1, hOK2⟩ := hOK
  by_cases hq : qualifies e.messages = true
  · by_cases hv : viewers e.time = true
    · cases hlg : s.lastGen with
      | none =>
        have hstep : handleEvent cfg viewers s e
            = (⟨some e.time, none, none⟩,
               some ⟨e.time, TailMessages e.messages cfg.recentN, e.path, true⟩) := by
          simp [handleEvent, hq, hv, hlg]
        rw [hstep]
        refine ⟨by simp [chainFrom], by simp [lgAfter], ?_, ?_⟩
        · intro lg' h
          have h' : some e.time = some lg' := h
          injection h' with h''
          omega
        · intro tg h
          exact Option.noConfusion (show (none : Option Nat) = some tg from h)
      | some lg =>
        have hle : lg ≤ e.time := hOK1 lg hlg
        by_cases hel : cfg.interval ≤ e.time - lg
        · have hstep : handleEvent cfg viewers s e
              = (⟨some e.time, none, none⟩,
                 some ⟨e.time, TailMessages e.messages cfg.recentN, e.path, true⟩) := by
            simp [handleEvent, hq, hv, hlg, hel]
          rw [hstep]
          refine ⟨?_, by simp [lgAfter], ?_, ?_⟩
          · simp only [chainFrom, Option.toList]
            exact ⟨by omega, trivial⟩
          · intro lg' h
            have h' : some e.time = some lg' := h
            injection h' with h''
            omega
          · intro tg h
            exact Option.noConfusion (show (none : Option Nat) = some tg from h)
        · have hstep : handleEvent cfg viewers s e
              = (⟨some lg, some (TailMessages e.messages cfg.recentN, e.path),
                  some (e.time + (cfg.interval - (e.time - lg)))⟩, none) := by
            simp [handleEvent, hq, hv, hlg, hel]
          rw [hstep]
          refine ⟨by simp [chainFrom], by simp [lgAfter], ?_, ?_⟩
          · intro lg' h
            have h' : some lg = some lg' := h
            injection h' with h''
            omega
          · intro tg h
            have h' : some (e.time + (cfg.interval - (e.time - lg))) = some tg := h
            injection h' with h''
            exact ⟨lg, rfl, by omega⟩
    · have hv' : viewers e.time = false := by simpa using hv
      have hstep : handleEvent cfg viewers s e = (s, none) := by
        simp [handleEvent, hq, hv']
      rw [hstep]
      exact ⟨by simp [chainFrom], by simp [lgAfter], hOK1, hOK2⟩
  · have hq' : qualifies e.messages = false := by simpa using hq
    have hstep : handleEvent cfg viewers s e = (s, none) := by
      simp [handleEvent, hq']
    rw [hstep]
    exact ⟨by simp [chainFrom], by simp [lgAfter], hOK1, hOK2⟩

theorem dueFire_spec (cfg : RLConfig) (viewers : Nat → Bool) (s : RLState) (t lb : Nat)
    (hOK : StateOK cfg s lb) (hlb : lb ≤ t) :
    chainFrom cfg s.lastGen (dueFire viewers s t).2.toList
    ∧ (dueFire viewers s t).1.lastGen = lgAfter s.lastGen (dueFire viewers s t).2.toList
    ∧ StateOK cfg (dueFire viewers s t).1 t := by
  obtain ⟨hOK1, hOK2⟩ := hOK
  cases htim : s.timer with
  | none =>
    have hstep : dueFire viewers s t = (s, none) := by simp [dueFire, htim]
    rw [hstep]
    refine ⟨by simp [chainFrom], by simp [lgAfter], ?_, ?_⟩
    · exact fun lg h => le_trans (hOK1 lg h) hlb
    · intro tg h
      have h' : s.timer = some tg := h
      rw [htim] at h'
      exact Option.noConfusion h'
  | some tg =>
    obtain ⟨lg, hlg, htg⟩ := hOK2 tg htim
    have hlgle : lg ≤ lb := hOK1 lg hlg
    by_cases hdue : tg ≤ t
    · cases hp : s.pending with
      | none =>
        have hstep : dueFire viewers s t = (⟨s.lastGen, none, none⟩, none) := by
          simp [dueFire, htim, hdue, fireTimer, hp]
        rw [hstep]
        refine ⟨by simp [chainFrom], by simp [lgAfter], ?_, ?_⟩
        · intro lg' h
          have h' : s.lastGen = some lg' := h
          exact le_trans (hOK1 lg' h') hlb
        · intro tg' h
          exact Option.noConfusion (show (none : Option Nat) = some tg' from h)
      | some p =>
        obtain ⟨r, pa⟩ := p
        by_cases hview : viewers tg = true
        · have hstep : dueFire viewers s t
              = (⟨some tg, none, none⟩, some ⟨tg, r, pa, false⟩) := by
            simp [dueFire, htim, hdue, fireTimer, hp, hview]
          rw [hstep, hlg]
          refine ⟨?_, by simp [lgAfter], ?_, ?_⟩
          · simp only [chainFrom, Option.toList]
            exact ⟨by omega, trivial⟩
          · intro lg' h
            have h' : some tg = some lg' := h
            injection h' with h''
            omega
          · intro tg' h
            exact Option.noConfusion (show (none : Option Nat) = some tg' from h)
        · have hview' : viewers tg = false := by simpa using hview
          have hstep : dueFire viewers s t = (⟨s.lastGen, none, none⟩, none) := by
            simp [dueFire, htim, hdue, fireTimer, hp, hview']
          rw [hstep]
          refine ⟨by simp [chainFrom], by simp [lgAfter], ?_, ?_⟩
          · intro lg' h
            have h' : s.lastGen = some lg' := h
            exact le_trans (hOK1 lg' h') hlb
          · intro tg' h
            exact Option.noConfusion (show (none : Option Nat) = some tg' from h)
    · have hstep : dueFire viewers s t = (s, none) := by simp [dueFire, htim, hdue]
      rw [hstep]
      refine ⟨by simp [chainFrom], by simp [lgAfter], ?_, ?_⟩
      · exact fun lg' h => le_trans (hOK1 lg' h) hlb
      · intro tg' h
        have h' : s.timer = some tg' := h
        rw [htim] at h'
        injection h' with h''
        exact ⟨lg, hlg, by omega⟩

theorem runDispatcher_chainFrom (cfg : RLConfig) (viewers : Nat → Bool) :
    ∀ (es : List DEvent) (s : RLState) (lb : Nat),
      StateOK cfg s lb →
      List.Pairwise (fun a b : DEvent => a.time < b.time) es →
      (∀ e ∈ es, lb ≤ e.time) →
      chainFrom cfg s.lastGen (runDispatcher cfg viewers s es) := by
  intro es
  induction es with
  | nil =>
    intro s lb hOK _ _
    obtain ⟨hOK1, hOK2⟩ := hOK
    cases htim : s.timer with
    | none => simp [runDispatcher, htim, chainFrom]
    | some tg =>
      obtain ⟨lg, hlg, htg⟩ := hOK2 tg htim
      cases hp : s.pending with
      | none => simp [runDispatcher, htim, fireTimer, hp, chainFrom]
      | some p =>
        obtain ⟨r, pa⟩ := p
        by_cases hview : viewers tg = true
        · have hrun : runDispatcher cfg viewers s [] = [⟨tg, r, pa, false⟩] := by
            simp [runDispatcher, htim, fireTimer, hp, hview]
          rw [hrun, hlg]
          simp only [chainFrom]
          exact ⟨by omega, trivial⟩
        · have hview' : viewers tg = false := by simpa using hview
          simp [runDispatcher, htim, fireTimer, hp, hview', chainFrom]
  | cons e es2 ih =>
    intro s lb hOK hpw hge
    have hlbe : lb ≤ e.time := hge e (List.mem_cons_self e es2)
    have hd := dueFire_spec cfg viewers s e.time lb hOK hlbe
    have hh := handleEvent_spec cfg viewers (dueFire viewers s e.time).1 e hd.2.2
    have hpw2 := (List.pairwise_cons.mp hpw).2
    have hhd := (List.pairwise_cons.mp hpw).1
    have hge2 : ∀ e2 ∈ es2, e.time ≤ e2.time := fun e2 h2 => le_of_lt (hhd e2 h2)
    have hrest := ih (handleEvent cfg viewers (dueFire viewers s e.time).1 e).1 e.time
      hh.2.2 hpw2 hge2
    have hrun : runDispatcher cfg viewers s (e :: es2)
        = ((dueFire viewers s e.time).2.toList
            ++ (handleEvent cfg viewers (dueFire viewers s e.time).1 e).2.toList)
          ++ runDispatcher cfg viewers
              (handleEvent cfg viewers (dueFire viewers s e.time).1 e).1 es2 := by
      simp [runDispatcher, stepEvent]
    rw [hrun, List.append_assoc]
    apply chainFrom_append
    · exact hd.1
    · apply chainFrom_append
      · rw [← hd.2.1]
        exact hh.1
      · rw [← hd.2.1, ← hh.2.1]
        exact hrest

theorem runDispatcher_spaced (cfg : RLConfig) :
    ∀ (es : List DEvent) (t0 : Nat),
      (∀ e ∈ es, qualifies e.messages = true) →
      List.Chain' (fun a b : DEvent => a.time + cfg.interval ≤ b.time) es →
      (∀ e, es.head? = some e → t0 + cfg.interval ≤ e.time) →
      runDispatcher cfg (fun _ => true) ⟨some t0, none, none⟩ es
        = es.map (fun e => ⟨e.time, TailMessages e.messages cfg.recentN, e.path, true⟩) := by
  intro es
  induction es with
  | nil => intro t0 _ _ _; rfl
  | cons e es2 ih =>
    intro t0 hq hch hhead
    have he : t0 + cfg.interval ≤ e.time := hhead e rfl
    have hqe : qualifies e.messages = true := hq e (List.mem_cons_self e es2)
    have hel : cfg.interval ≤ e.time - t0 := by omega
    have hstep : stepEvent cfg (fun _ => true) ⟨some t0, none, none⟩ e
        = (⟨some e.time, none, none⟩,
           [⟨e.time, TailMessages e.messages cfg.recentN, e.path, true⟩]) := by
      simp [stepEvent, dueFire, handleEvent, hqe, hel]
    have hrun : runDispatcher cfg (fun _ => true) ⟨some t0, none, none⟩ (e :: es2)
        = (stepEvent cfg (fun _ => true) ⟨some t0, none, none⟩ e).2
          ++ runDispatcher cfg (fun _ => true)
              (stepEvent cfg (fun _ => true) ⟨some t0, none, none⟩ e).1 es2 := by
      simp [runDispatcher]
    rw [hrun, hstep]
    have hq2 : ∀ e2 ∈ es2, qualifies e2.messages = true :=
      fun e2 h2 => hq e2 (List.mem_cons_of_mem e h2)
    have hhead2 : ∀ e2, es2.head? = some e2 → e.time + cfg.interval ≤ e2.time := by
      intro e2 h2
      cases es2 with
      | nil => exact Option.noConfusion h2
      | cons f fs =>
        have : e2 = f := by
          have h' : some f = some e2 := h2
          exact (Option.some.inj h').symm
        subst this
        exact (List.chain'_cons.mp hch).1
    rw [ih e.time hq2 hch.tail hhead2]
    simp

/-- Claim C2: over any chronological event trace from process start, the
time between consecutive dispatches (immediate or deferred-fired) is at
least the configured interval; and every trace of qualifying events spaced
at least one interval apart, with a viewer always connected, produces
exactly one immediate dispatch per event. -/
theorem C2_dispatch_spacing (cfg : RLConfig) (viewers : Nat → Bool) :
    (∀ es : List DEvent,
        List.Pairwise (fun a b : DEvent => a.time < b.time) es →
        List.Chain' (gapOK cfg) (runDispatcher cfg viewers initialRLState es))
    ∧ (∀ es : List DEvent,
        (∀ e ∈ es, qualifies e.messages = true) →
        List.Chain' (fun a b : DEvent => a.time + cfg.interval ≤ b.time) es →
        runDispatcher cfg (fun _ => true) initialRLState es
          = es.map (fun e => ⟨e.time, TailMessages e.messages cfg.recentN, e.path, true⟩)) := by
  constructor
  · intro es hpw
    have hOK : StateOK cfg initialRLState 0 :=
      ⟨fun lg h => Option.noConfusion h, fun tg h => Option.noConfusion h⟩
    exact chainFrom_chain cfg _ none
      (runDispatcher_chainFrom cfg viewers es initialRLState 0 hOK hpw
        (fun e _ => Nat.zero_le _))
  · intro es hq hch
    cases es with
    | nil => rfl
    | cons e es2 =>
      have hqe : qualifies e.messages = true := hq e (List.mem_cons_self e es2)
      have hstep : stepEvent cfg (fun _ => true) initialRLState e
          = (⟨some e.time, none, none⟩,
             [⟨e.time, TailMessages e.messages cfg.recentN, e.path, true⟩]) := by
        simp [stepEvent, dueFire, handleEvent, hqe, initialRLState]
      have hrun : runDispatcher cfg (fun _ => true) initialRLState (e :: es2)
          = (stepEvent cfg (fun _ => true) initialRLState e).2
            ++ runDispatcher cfg (fun _ => true)
                (stepEvent cfg (fun _ => true) initialRLState e).1 es2 := by
        simp [runDispatcher]
      rw [hrun, hstep]
      have hq2 : ∀ e2 ∈ es2, qualifies e2.messages = true :=
        fun e2 h2 => hq e2 (List.mem_cons_of_mem e h2)
      have hhead2 : ∀ e2, es2.head? = some e2 → e.time + cfg.interval ≤ e2.time := by
        intro e2 h2
        cases es2 with
        | nil => exact Option.noConfusion h2
        | cons f fs =>
          have : e2 = f := by
            have h' : some f = some e2 := h2
            exact (Option.some.inj h').symm
          subst this
          exact (List.chain'_cons.mp hch).1
      rw [runDispatcher_spaced cfg es2 e.time hq2 hch.tail hhead2]
      simp

theorem handleEvent_no_viewers (cfg : RLConfig) (viewers : Nat → Bool) (s : RLState)
    (e : DEvent) (hv : viewers e.time = false) :
    handleEvent cfg viewers s e = (s, none) := by
  by_cases hq : qualifies e.messages = true
  · simp [handleEvent, hq, hv]
  · have hq' : qualifies e.messages = false := by simpa using hq
    simp [handleEvent, hq']

theorem runDispatcher_no_viewers (cfg : RLConfig) (viewers : Nat → Bool)
    (hv : ∀ t, viewers t = false) :
    ∀ (es : List DEvent) (s : RLState), runDispatcher cfg viewers s es = [] := by
  intro es
  induction es with
  | nil =>
    intro s
    cases htim : s.timer with
    | none => simp [runDispatcher, htim]
    | some tg =>
      cases hp : s.pending with
      | none => simp [runDispatcher, htim, fireTimer, hp]
      | some p =>
        obtain ⟨r, pa⟩ := p
        simp [runDispatcher, htim, fireTimer, hp, hv tg]
  | cons e es2 ih =>
    intro s
    have hfr : (dueFire viewers s e.time).2 = none := by
      cases htim : s.timer with
      | none => simp [dueFire, htim]
      | some tg =>
        by_cases hle : tg ≤ e.time
        · cases hp : s.pending with
          | none => simp [dueFire, htim, hle, fireTimer, hp]
          | some p =>
            obtain ⟨r, pa⟩ := p
            simp [dueFire, htim, hle, fireTimer, hp, hv tg]
        · simp [dueFire, htim, hle]
    have hhe := handleEvent_no_viewers cfg viewers (dueFire viewers s e.time).1 e (hv e.time)
    have hrun : runDispatcher cfg viewers s (e :: es2)
        = ((dueFire viewers s e.time).2.toList
            ++ (handleEvent cfg viewers (dueFire viewers s e.time).1 e).2.toList)
          ++ runDispatcher cfg viewers
              (handleEvent cfg viewers (dueFire viewers s e.time).1 e).1 es2 := by
      simp [runDispatcher, stepEvent]
    rw [hrun, hfr, hhe]
    simp [ih]

/-- Claim C3: a qualifying event arriving while no viewer is connected is
dropped with no dispatch and no change to the dispatcher state, whatever
the cooldown; and over any trace with no viewers ever connected, from any
dispatcher state (armed deferred timer included), zero dispatches occur. -/
theorem C3_no_viewers_drop (cfg : RLConfig) (viewers : Nat → Bool) (s : RLState)
    (e : DEvent) (es : List DEvent) (s2 : RLState) :
    (qualifies e.messages = true → viewers e.time = false →
        handleEvent cfg viewers s e = (s, none))
    ∧ ((∀ t, viewers t = false) → runDispatcher cfg viewers s2 es = []) :=
  ⟨fun _ hv => handleEvent_no_viewers cfg viewers s e hv,
   fun hv => runDispatcher_no_viewers cfg viewers hv es s2⟩

/-- Claim C3 witness: a qualifying event at a viewerless dispatcher and a
viewerless trace over a state with an armed deferred timer. -/
theorem C3_witness :
    (qualifies (soloAssistant "a") = true
      ∧ (fun _ : Nat => false) ((DEvent.mk 5 (soloAssistant "a") "s").time) = false
      ∧ handleEvent ⟨10, 10⟩ (fun _ => false) initialRLState ⟨5, soloAssistant "a", "s"⟩
          = (initialRLState, none))
    ∧ ((∀ t : Nat, (fun _ : Nat => false) t = false)
      ∧ runDispatcher ⟨10, 10⟩ (fun _ => false)
          ⟨some 0, some (soloAssistant "b", "s"), some 10⟩
          [⟨5, soloAssistant "a", "s"⟩] = []) :=
  ⟨⟨by decide, rfl,
    (C3_no_viewers_drop ⟨10, 10⟩ (fun _ => false) initialRLState ⟨5, soloAssistant "a", "s"⟩
      [] initialRLState).1 (by decide) rfl⟩,
   ⟨fun _ => rfl,
    (C3_no_viewers_drop ⟨10, 10⟩ (fun _ => false) initialRLState ⟨5, soloAssistant "a", "s"⟩
      [⟨5, soloAssistant "a", "s"⟩]
      ⟨some 0, some (soloAssistant "b", "s"), some 10⟩).2 (fun _ => rfl)⟩⟩

/-- Claim C2 witness: two events one interval apart from process start
satisfy both the spacing invariant and the all-immediate conclusion. -/
theorem C2_witness :
    (List.Pairwise (fun a b : DEvent => a.time < b.time)
        [⟨0, soloAssistant "a", "s"⟩, ⟨12, soloAssistant "b", "s"⟩]
      ∧ List.Chain' (gapOK ⟨10, 10⟩)
          (runDispatcher ⟨10, 10⟩ (fun _ => true) initialRLState
            [⟨0, soloAssistant "a", "s"⟩, ⟨12, soloAssistant "b", "s"⟩]))
    ∧ ((∀ e ∈ [DEvent.mk 0 (soloAssistant "a") "s", DEvent.mk 12 (soloAssistant "b") "s"],
          qualifies e.messages = true)
      ∧ List.Chain' (fun a b : DEvent => a.time + (10 : Nat) ≤ b.time)
          [⟨0, soloAssistant "a", "s"⟩, ⟨12, soloAssistant "b", "s"⟩]
      ∧ runDispatcher ⟨10, (10 : Nat)⟩ (fun _ => true) initialRLState
            [⟨0, soloAssistant "a", "s"⟩, ⟨12, soloAssistant "b", "s"⟩]
          = [DEvent.mk 0 (soloAssistant "a") "s",
             DEvent.mk 12 (soloAssistant "b") "s"].map
              (fun e => ⟨e.time, TailMessages e.messages (10 : Nat), e.path, true⟩)) :=
  ⟨⟨by decide,
    (C2_dispatch_spacing ⟨10, 10⟩ (fun _ => true)).1
      [⟨0, soloAssistant "a", "s"⟩, ⟨12, soloAssistant "b", "s"⟩] (by decide)⟩,
   ⟨by decide, List.chain'_pair.mpr (by decide),
    (C2_dispatch_spacing ⟨10, 10⟩ (fun _ => true)).2
      [⟨0, soloAssistant "a", "s"⟩, ⟨12, soloAssistant "b", "s"⟩] (by decide)
      (List.chain'_pair.mpr (by decide))⟩⟩

theorem lastPayload_getLast (cfg : RLConfig) :
    ∀ (rest : List DEvent) (p : List Message × String) (el : DEvent),
      rest.getLast? = some el →
      lastPayload cfg p rest = (TailMessages el.messages cfg.recentN, el.path) := by
  intro rest
  induction rest with
  | nil => intro p el h; exact Option.noConfusion h
  | cons e rest2 ih =>
    intro p el h
    cases rest2 with
    | nil =>
      have h' : some e = some el := h
      rw [← Option.some.inj h']
      rfl
    | cons f fs =>
      rw [List.getLast?_cons_cons] at h
      exact ih (TailMessages e.messages cfg.recentN, e.path) el h

theorem burst_tail_run (cfg : RLConfig) :
    ∀ (rest : List DEvent) (t1 : Nat) (p : List Message × String),
      (∀ e ∈ rest, qualifies e.messages = true) →
      (∀ e ∈ rest, t1 < e.time ∧ e.time < t1 + cfg.interval) →
      runDispatcher cfg (fun _ => true) ⟨some t1, some p, some (t1 + cfg.interval)⟩ rest
        = [⟨t1 + cfg.interval, (lastPayload cfg p rest).1, (lastPayload cfg p rest).2,
            false⟩] := by
  intro rest
  induction rest with
  | nil =>
    intro t1 p _ _
    obtain ⟨r, pa⟩ := p
    simp [runDispatcher, fireTimer, lastPayload]
  | cons e rest2 ih =>
    intro t1 p hq hw
    have hqe : qualifies e.messages = true := hq e (List.mem_cons_self e rest2)
    obtain ⟨hgt, hlt⟩ := hw e (List.mem_cons_self e rest2)
    have hfire : ¬ (t1 + cfg.interval ≤ e.time) := by omega
    have hnel : ¬ (cfg.interval ≤ e.time - t1) := by omega
    have htarget : e.time + (cfg.interval - (e.time - t1)) = t1 + cfg.interval := by omega
    have hstep : stepEvent cfg (fun _ => true) ⟨some t1, some p, some (t1 + cfg.interval)⟩ e
        = (⟨some t1, some (TailMessages e.messages cfg.recentN, e.path),
            some (t1 + cfg.interval)⟩, []) := by
      simp [stepEvent, dueFire, handleEvent, hqe, hfire, hnel, htarget]
    have hrun : runDispatcher cfg (fun _ => true)
          ⟨some t1, some p, some (t1 + cfg.interval)⟩ (e :: rest2)
        = (stepEvent cfg (fun _ => true) ⟨some t1, some p, some (t1 + cfg.interval)⟩ e).2
          ++ runDispatcher cfg (fun _ => true)
              (stepEvent cfg (fun _ => true)
                ⟨some t1, some p, some (t1 + cfg.interval)⟩ e).1 rest2 := by
      simp [runDispatcher]
    rw [hrun, hstep]
    have hq2 : ∀ e2 ∈ rest2, qualifies e2.messages = true :=
      fun e2 h2 => hq e2 (List.mem_cons_of_mem e h2)
    have hw2 : ∀ e2 ∈ rest2, t1 < e2.time ∧ e2.time < t1 + cfg.interval :=
      fun e2 h2 => hw e2 (List.mem_cons_of_mem e h2)
    rw [ih t1 (TailMessages e.messages cfg.recentN, e.path) hq2 hw2]
    simp [lastPayload]

/-- Claim C1 counterexample: interval 10, viewers always connected, a
dispatch at time 0, then a burst of three qualifying events at times 8, 9
and 11 — all within 3 ticks, less than one interval.  The claim requires
at most one immediate dispatch (for the first burst event), exactly one
deferred dispatch carrying the last event's payload, and no intermediate
event ever dispatched.  The code instead fires the already-armed deadline
at time 10, mid-burst, dispatching the intermediate time-9 payload, and a
second deferred dispatch at time 20 carries the last payload: two deferred
dispatches, one of them for an intermediate event of the burst. -/
theorem C1_counterexample :
    runDispatcher ⟨10, 10⟩ (fun _ => true) initialRLState
        [⟨0, soloAssistant "a", "s"⟩, ⟨8, soloAssistant "b", "s"⟩,
         ⟨9, soloAssistant "c", "s"⟩, ⟨11, soloAssistant "d", "s"⟩]
      = [⟨0, soloAssistant "a", "s", true⟩, ⟨10, soloAssistant "c", "s", false⟩,
         ⟨20, soloAssistant "d", "s", false⟩]
    ∧ ((runDispatcher ⟨10, 10⟩ (fun _ => true) initialRLState
        [⟨0, soloAssistant "a", "s"⟩, ⟨8, soloAssistant "b", "s"⟩,
         ⟨9, soloAssistant "c", "s"⟩, ⟨11, soloAssistant "d", "s"⟩]).filter
          (fun d => !d.immediate)).length = 2 := by
  decide

/-- Claim C1, amended: provided the cooldown has elapsed (or no dispatch
has happened yet) when the first event of the burst arrives and no
deferred dispatch is pending, a burst of K greater than 1 qualifying
events within less than one interval, with a viewer always connected,
produces exactly one immediate dispatch — for the first event — and
exactly one deferred dispatch at first-event time plus interval carrying
the payload of the last event; no intermediate event is dispatched.  (When
the cooldown is still active at burst start, the already-armed deadline
can fire mid-burst and dispatch an intermediate payload, as the
counterexample shows.) -/
theorem C1_burst_amended (cfg : RLConfig) (s : RLState) (e1 : DEvent) (rest : List DEvent)
    (el : DEvent)
    (hpend : s.pending = none) (htim : s.timer = none)
    (hlg : ∀ lg, s.lastGen = some lg → lg ≤ e1.time ∧ cfg.interval ≤ e1.time - lg)
    (hq1 : qualifies e1.messages = true)
    (hqr : ∀ e ∈ rest, qualifies e.messages = true)
    (hwin : ∀ e ∈ rest, e1.time < e.time ∧ e.time < e1.time + cfg.interval)
    (hlast : rest.getLast? = some el) :
    runDispatcher cfg (fun _ => true) s (e1 :: rest)
      = [⟨e1.time, TailMessages e1.messages cfg.recentN, e1.path, true⟩,
         ⟨e1.time + cfg.interval, TailMessages el.messages cfg.recentN, el.path, false⟩] := by
  have hstep1 : stepEvent cfg (fun _ => true) s e1
      = (⟨some e1.time, none, none⟩,
         [⟨e1.time, TailMessages e1.messages cfg.recentN, e1.path, true⟩]) := by
    cases hlgv : s.lastGen with
    | none => simp [stepEvent, dueFire, handleEvent, htim, hq1, hlgv]
    | some lg =>
      have := (hlg lg hlgv).2
      simp [stepEvent, dueFire, handleEvent, htim, hq1, hlgv, this]
  have hrun : runDispatcher cfg (fun _ => true) s (e1 :: rest)
      = (stepEvent cfg (fun _ => true) s e1).2
        ++ runDispatcher cfg (fun _ => true) (stepEvent cfg (fun _ => true) s e1).1 rest := by
    simp [runDispatcher]
  rw [hrun, hstep1]
  cases rest with
  | nil => exact Option.noConfusion hlast
  | cons r1 rest2 =>
    have hq2 : qualifies r1.messages = true := hqr r1 (List.mem_cons_self r1 rest2)
    obtain ⟨hgt, hlt⟩ := hwin r1 (List.mem_cons_self r1 rest2)
    have hnel : ¬ (cfg.interval ≤ r1.time - e1.time) := by omega
    have htarget : r1.time + (cfg.interval - (r1.time - e1.time))
        = e1.time + cfg.interval := by omega
    have hstep2 : stepEvent cfg (fun _ => true) ⟨some e1.time, none, none⟩ r1
        = (⟨some e1.time, some (TailMessages r1.messages cfg.recentN, r1.path),
            some (e1.time + cfg.interval)⟩, []) := by
      simp [stepEvent, dueFire, handleEvent, hq2, hnel, htarget]
    have hrun2 : runDispatcher cfg (fun _ => true) ⟨some e1.time, none, none⟩ (r1 :: rest2)
        = (stepEvent cfg (fun _ => true) ⟨some e1.time, none, none⟩ r1).2
          ++ runDispatcher cfg (fun _ => true)
              (stepEvent cfg (fun _ => true) ⟨some e1.time, none, none⟩ r1).1 rest2 := by
      simp [runDispatcher]
    rw [hrun2, hstep2]
    have hq3 : ∀ e ∈ rest2, qualifies e.messages = true :=
      fun e h => hqr e (List.mem_cons_of_mem r1 h)
    have hw3 : ∀ e ∈ rest2, e1.time < e.time ∧ e.time < e1.time + cfg.interval :=
      fun e h => hwin e (List.mem_cons_of_mem r1 h)
    rw [burst_tail_run cfg rest2 e1.time (TailMessages r1.messages cfg.recentN, r1.path)
      hq3 hw3]
    have hlp : lastPayload cfg (TailMessages r1.messages cfg.recentN, r1.path) rest2
        = (TailMessages el.messages cfg.recentN, el.path) := by
      have := lastPayload_getLast cfg (r1 :: rest2)
        (TailMessages r1.messages cfg.recentN, r1.path) el hlast
      rw [← this]
      rfl
    rw [hlp]
    simp

/-- Claim C1 witness: from process start, a burst of three qualifying
events at times 0, 3, 5 with interval 10 yields the immediate dispatch for
the first and one deferred dispatch with the last event's payload. -/
theorem C1_witness :
    (initialRLState.pending = none
      ∧ initialRLState.timer = none
      ∧ (∀ lg, initialRLState.lastGen = some lg →
          lg ≤ (DEvent.mk 0 (soloAssistant "a") "s").time
          ∧ (RLConfig.mk 10 10).interval ≤ (DEvent.mk 0 (soloAssistant "a") "s").time - lg)
      ∧ qualifies (soloAssistant "a") = true
      ∧ (∀ e ∈ [DEvent.mk 3 (soloAssistant "b") "s", DEvent.mk 5 (soloAssistant "c") "s"],
          qualifies e.messages = true)
      ∧ (∀ e ∈ [DEvent.mk 3 (soloAssistant "b") "s", DEvent.mk 5 (soloAssistant "c") "s"],
          (DEvent.mk 0 (soloAssistant "a") "s").time < e.time
          ∧ e.time < (DEvent.mk 0 (soloAssistant "a") "s").time + (RLConfig.mk 10 10).interval)
      ∧ [DEvent.mk 3 (soloAssistant "b") "s", DEvent.mk 5 (soloAssistant "c") "s"].getLast?
          = some ⟨5, soloAssistant "c", "s"⟩)
    ∧ runDispatcher ⟨10, 10⟩ (fun _ => true) initialRLState
        [⟨0, soloAssistant "a", "s"⟩, ⟨3, soloAssistant "b", "s"⟩,
         ⟨5, soloAssistant "c", "s"⟩]
      = [⟨0, TailMessages (soloAssistant "a") 10, "s", true⟩,
         ⟨0 + 10, TailMessages (soloAssistant "c") 10, "s", false⟩] :=
  ⟨⟨rfl, rfl, fun _ h => Option.noConfusion h, by decide, by decide, by decide, by decide⟩,
   C1_burst_amended ⟨10, 10⟩ initialRLState ⟨0, soloAssistant "a", "s"⟩
     [⟨3, soloAssistant "b", "s"⟩, ⟨5, soloAssistant "c", "s"⟩] ⟨5, soloAssistant "c", "s"⟩
     rfl rfl (fun _ h => Option.noConfusion h) (by decide) (by decide) (by decide) (by decide)⟩

/-- Claim C7: per parseable line, a user record whose content is a
non-degenerate string yields one user turn with the trimmed text, a
degenerate string or a list yields none; an assistant record with a
well-formed block array yields one assistant turn joining its non-empty
trimmed text segments with newlines, or none if there are no such
segments; the two-line scenario buffer parses to exactly the user turn
hello and the assistant turn hi there, and qualifies. -/
theorem C7_turn_parsing :
    (∀ (fields : List (String × Json)) (s : String),
        objLookup fields "content" = some (.str s) → trimSpaceStr s ≠ "" →
        parseUserEntry (some (.obj fields)) = some ⟨"user", trimSpaceStr s⟩)
    ∧ (∀ (fields : List (String × Json)) (s : String),
        objLookup fields "content" = some (.str s) → trimSpaceStr s = "" →
        parseUserEntry (some (.obj fields)) = none)
    ∧ (∀ (fields : List (String × Json)) (xs : List Json),
        objLookup fields "content" = some (.arr xs) →
        parseUserEntry (some (.obj fields)) = none)
    ∧ (∀ (fields : List (String × Json)) (xs : List Json) (blocks : List (String × String)),
        objLookup fields "content" = some (.arr xs) →
        xs.mapM unmarshalContentBlock = some blocks →
        parseAssistantEntry (some (.obj fields)) =
          (if blocks.filterMap (fun b =>
              if b.1 = "text" && trimSpaceStr b.2 ≠ "" then some (trimSpaceStr b.2) else none)
            = [] then none
           else some ⟨"assistant", joinWith "\n" (blocks.filterMap (fun b =>
              if b.1 = "text" && trimSpaceStr b.2 ≠ "" then some (trimSpaceStr b.2)
              else none))⟩))
    ∧ ParseJSONL parserScenarioBuf = [⟨"user", "hello"⟩, ⟨"assistant", "hi there"⟩]
    ∧ qualifies (ParseJSONL parserScenarioBuf) = true := by
  refine ⟨?_, ?_, ?_, ?_, by decide, by decide⟩
  · intro fields s h hne
    simp [parseUserEntry, unmarshalRawMessage, h, hne]
  · intro fields s h he
    simp [parseUserEntry, unmarshalRawMessage, h, he]
  · intro fields xs h
    simp [parseUserEntry, unmarshalRawMessage, h]
  · intro fields xs blocks h hm
    simp only [parseAssistantEntry, unmarshalRawMessage, h]
    rw [hm]

/-- Claim C7 witness: a user record with padded string content, a user
record with list content, and an assistant record with one text block. -/
theorem C7_witness :
    (objLookup [("content", Json.str " hi ")] "content" = some (.str " hi ")
      ∧ trimSpaceStr " hi " ≠ ""
      ∧ parseUserEntry (some (.obj [("content", Json.str " hi ")])) = some ⟨"user", "hi"⟩)
    ∧ (objLookup [("content", Json.arr [])] "content" = some (.arr [])
      ∧ parseUserEntry (some (.obj [("content", Json.arr [])])) = none)
    ∧ ([Json.obj [("type", Json.str "text"), ("text", Json.str "hey")]].mapM
          unmarshalContentBlock = some [("text", "hey")]
      ∧ parseAssistantEntry (some (.obj [("content",
          Json.arr [Json.obj [("type", Json.str "text"), ("text", Json.str "hey")]])]))
          = some ⟨"assistant", "hey"⟩) :=
  ⟨⟨rfl, by decide, C7_turn_parsing.1 [("content", Json.str " hi ")] " hi " rfl (by decide)⟩,
   ⟨rfl, C7_turn_parsing.2.2.1 [("content", Json.arr [])] [] rfl⟩,
   ⟨rfl, C7_turn_parsing.2.2.2.1
      [("content", Json.arr [Json.obj [("type", Json.str "text"), ("text", Json.str "hey")]])]
      [Json.obj [("type", Json.str "text"), ("text", Json.str "hey")]]
      [("text", "hey")] rfl rfl⟩⟩
